import Mathlib

/-!
Shallow embedding of the PoolBnB booking-conflict core (src/main.py and
src/schemas.py) and proofs of the specified properties.

The document store is modelled as a `List Booking`; the Mongo `find` calls
become list filters and `create_document` becomes appending to the list.
Raised `HTTPException`s and the uncaught Python `ValueError` from time
parsing become values of `CreateError`; the `db is None` guard is outside
the model (the store is passed explicitly).
-/

namespace PoolBnB

/-- Booking record, mirroring `Booking` in src/schemas.py.  `total_price`
is a Python float in the source; the conflict core never inspects it, so it
is modelled as an integer.  `status` is a free-form string in the source
(pydantic default "pending"). -/
structure Booking where
  pool_id : String
  guest_name : String
  guest_email : String
  date : String
  start_time : String
  end_time : String
  total_price : Int
  status : String := "pending"
deriving DecidableEq

/-- Result of `int(s)` for a string, modelling the Python built-in used in
`map(int, t.split(":"))`: an optional sign followed by a nonempty digit
string (Python additionally strips surrounding whitespace and allows digit
group underscores; those leniencies are immaterial here).  `none` models a
raised `ValueError`. -/
def digitsToNat (cs : List Char) : Option Nat :=
  if cs.isEmpty then none
  else cs.foldl (fun acc c =>
    acc.bind fun n => if c.isDigit then some (n * 10 + (c.toNat - 48)) else none)
    (some 0)

/-- See `digitsToNat`; handles the optional leading sign of Python `int`. -/
def pyInt (cs : List Char) : Option Int :=
  match cs with
  | '-' :: rest => (digitsToNat rest).map fun n => -(n : Int)
  | '+' :: rest => (digitsToNat rest).map fun n => (n : Int)
  | _ => (digitsToNat cs).map fun n => (n : Int)

/-- Python `str.split(sep)` for a one-character separator, on the string's
character list: `"".split(":") = [""]`, `"::".split(":") = ["", "", ""]`. -/
def pySplit (sep : Char) : List Char → List (List Char)
  | [] => [[]]
  | c :: rest =>
    let r := pySplit sep rest
    if c = sep then [] :: r
    else
      match r with
      | head :: tail => (c :: head) :: tail
      | [] => [[c]]

/-- Embeds `to_minutes` (src/main.py lines 124-126):
`h, m = map(int, t.split(":")); return h * 60 + m`.
The tuple unpacking raises `ValueError` (modelled by `none`) unless the
split yields exactly two parts. -/
def to_minutes (t : String) : Option Int :=
  match pySplit ':' t.toList with
  | [hs, ms] => do
      let h ← pyInt hs
      let m ← pyInt ms
      pure (h * 60 + m)
  | _ => none

/-- Embeds the Mongo query filter used by both `create_booking`
(src/main.py lines 118-122) and `get_availability` (lines 149-153):
same `pool_id`, same `date`, and `status` in `{"pending", "confirmed"}`. -/
def bookingQueryFilter (pid date : String) (b : Booking) : Bool :=
  b.pool_id == pid && b.date == date &&
    (b.status == "pending" || b.status == "confirmed")

/-- The candidate set `existing` fetched by `create_booking`. -/
def active_bookings (pid date : String) (store : List Booking) : List Booking :=
  store.filter (bookingQueryFilter pid date)

/-- Outcomes of `create_booking` other than success: the two raised
`HTTPException`s (400 invalid range, 409 slot taken) and the uncaught
`ValueError` escaping `to_minutes` (surfaced by the framework as a 500). -/
inductive CreateError where
  | valueError
  | invalidRange
  | slotTaken
deriving DecidableEq

deriving instance DecidableEq for Except

/-- Embeds the overlap test on src/main.py line 137:
`new_start < e and new_end > s`. -/
def overlaps (new_start new_end s e : Int) : Bool :=
  new_start < e && new_end > s

/-- Embeds the `for b in existing` loop of src/main.py lines 133-138:
parse each existing booking's times (an unparsable one raises `ValueError`)
and raise 409 `slotTaken` on the first overlap. -/
def scan_conflicts (new_start new_end : Int) : List Booking → Except CreateError Unit
  | [] => .ok ()
  | b :: rest =>
    match to_minutes b.start_time, to_minutes b.end_time with
    | some s, some e =>
        if overlaps new_start new_end s e then .error .slotTaken
        else scan_conflicts new_start new_end rest
    | _, _ => .error .valueError

/-- Embeds `create_booking` (src/main.py lines 112-141).  Returns the
outcome together with the resulting store: a raised exception leaves the
store untouched (the `raise` precedes `create_document`); on success the
document is inserted. -/
def create_booking (booking : Booking) (store : List Booking) :
    Except CreateError Unit × List Booking :=
  let existing := active_bookings booking.pool_id booking.date store
  match to_minutes booking.start_time, to_minutes booking.end_time with
  | some new_start, some new_end =>
      if new_end ≤ new_start then (.error .invalidRange, store)
      else
        match scan_conflicts new_start new_end existing with
        | .error err => (.error err, store)
        | .ok _ => (.ok (), store ++ [booking])
  | _, _ => (.error .valueError, store)

/-- Embeds `get_availability` (src/main.py lines 144-154): same query
filter, projected to the `start_time`/`end_time` fields only. -/
def get_availability (pool_id date : String) (store : List Booking) :
    List (String × String) :=
  (store.filter (bookingQueryFilter pool_id date)).map fun b =>
    (b.start_time, b.end_time)

/-- Minute range of a stored booking, when both its times parse. -/
def docRange (b : Booking) : Option (Int × Int) :=
  match to_minutes b.start_time, to_minutes b.end_time with
  | some s, some e => some (s, e)
  | _, _ => none

/-- Two half-open minute ranges do not intersect. -/
def ranges_disjoint (r1 r2 : Int × Int) : Prop :=
  ¬ (r1.1 < r2.2 ∧ r1.2 > r2.1)

/-- Two stored bookings are non-overlapping whenever both have minute
ranges. -/
def docs_disjoint (a b : Booking) : Prop :=
  ∀ ra rb, docRange a = some ra → docRange b = some rb → ranges_disjoint ra rb

/-- Pairwise non-overlap of a list of bookings (the no-conflict
invariant). -/
def NoOverlaps (l : List Booking) : Prop :=
  l.Pairwise docs_disjoint

/-- Sample well-formed booking request used for concrete instantiations. -/
def sampleBooking : Booking :=
  { pool_id := "pool1", guest_name := "Ann Guest",
    guest_email := "ann@example.com", date := "2025-06-01",
    start_time := "09:00", end_time := "10:00", total_price := 50 }

/-- Sample request that carries an explicit non-default status. -/
def confirmedRequest : Booking :=
  { sampleBooking with status := "confirmed" }

/-! Helper lemmas about the embedded functions. -/

lemma overlaps_eq_true_iff {a b c d : Int} :
    overlaps a b c d = true ↔ (a < d ∧ b > c) := by
  simp [overlaps]

lemma overlaps_eq_false_iff {a b c d : Int} :
    overlaps a b c d = false ↔ ¬ (a < d ∧ b > c) := by
  rw [← Bool.not_eq_true, overlaps_eq_true_iff]

lemma docRange_eq_some {b : Booking} {s e : Int}
    (hs : to_minutes b.start_time = some s) (he : to_minutes b.end_time = some e) :
    docRange b = some (s, e) := by
  unfold docRange
  rw [hs, he]

lemma docRange_some_elim {b : Booking} {s e : Int}
    (h : docRange b = some (s, e)) :
    to_minutes b.start_time = some s ∧ to_minutes b.end_time = some e := by
  unfold docRange at h
  split at h
  · rename_i s' e' hs he
    have hp := Option.some.inj h
    have h1 : s' = s := congrArg Prod.fst hp
    have h2 : e' = e := congrArg Prod.snd hp
    subst h1; subst h2
    exact ⟨hs, he⟩
  · cases h

lemma scan_conflicts_ok_mem {ns ne : Int} {l : List Booking}
    (h : scan_conflicts ns ne l = .ok ()) :
    ∀ x ∈ l, ∃ s e, docRange x = some (s, e) ∧ overlaps ns ne s e = false := by
  induction l with
  | nil => intro x hx; cases hx
  | cons b rest ih =>
    rcases hs : to_minutes b.start_time with _ | s
    · rcases he : to_minutes b.end_time with _ | e <;>
        simp only [scan_conflicts, hs, he] at h <;>
        exact Except.noConfusion h
    · rcases he : to_minutes b.end_time with _ | e
      · simp only [scan_conflicts, hs, he] at h
        exact Except.noConfusion h
      · simp only [scan_conflicts, hs, he] at h
        split at h
        · cases h
        · rename_i hov
          intro x hx
          rcases List.mem_cons.mp hx with hx | hx
          · subst hx
            exact ⟨s, e, docRange_eq_some hs he, by
              simpa using hov⟩
          · exact ih h x hx

lemma scan_conflicts_ok_of_all {ns ne : Int} {l : List Booking}
    (h : ∀ x ∈ l, ∃ s e, docRange x = some (s, e) ∧ overlaps ns ne s e = false) :
    scan_conflicts ns ne l = .ok () := by
  induction l with
  | nil => rfl
  | cons b rest ih =>
    obtain ⟨s, e, hr, hov⟩ := h b (List.mem_cons_self b rest)
    obtain ⟨hs, he⟩ := docRange_some_elim hr
    simp only [scan_conflicts, hs, he, hov, if_false, Bool.false_eq_true]
    exact ih fun x hx => h x (List.mem_cons_of_mem b hx)

lemma scan_conflicts_slotTaken {ns ne : Int} {l : List Booking}
    (hall : ∀ x ∈ l, docRange x ≠ none)
    (hov : ∃ x ∈ l, ∃ s e, docRange x = some (s, e) ∧ overlaps ns ne s e = true) :
    scan_conflicts ns ne l = .error .slotTaken := by
  induction l with
  | nil => obtain ⟨x, hx, _⟩ := hov; cases hx
  | cons b rest ih =>
    rcases hrb : docRange b with _ | ⟨s, e⟩
    · exact absurd hrb (hall b (List.mem_cons_self b rest))
    obtain ⟨hs, he⟩ := docRange_some_elim hrb
    simp only [scan_conflicts, hs, he]
    by_cases hob : overlaps ns ne s e = true
    · rw [if_pos hob]
    · rw [if_neg hob]
      apply ih
      · exact fun x hx => hall x (List.mem_cons_of_mem b hx)
      · obtain ⟨x, hx, s', e', hr', ho'⟩ := hov
        rcases List.mem_cons.mp hx with hx | hx
        · subst hx
          rw [hrb] at hr'
          obtain ⟨rfl, rfl⟩ : s = s' ∧ e = e' := by
            have := Option.some.inj hr'
            exact ⟨congrArg Prod.fst this, congrArg Prod.snd this⟩
          exact absurd ho' hob
        · exact ⟨x, hx, s', e', hr', ho'⟩

lemma create_booking_spec (b : Booking) (store : List Booking) :
    (∃ ns ne, to_minutes b.start_time = some ns ∧ to_minutes b.end_time = some ne ∧
      ((ne ≤ ns ∧ create_booking b store = (.error .invalidRange, store)) ∨
       (ns < ne ∧ (∃ err,
          scan_conflicts ns ne (active_bookings b.pool_id b.date store) = .error err ∧
          create_booking b store = (.error err, store))) ∨
       (ns < ne ∧
          scan_conflicts ns ne (active_bookings b.pool_id b.date store) = .ok () ∧
          create_booking b store = (.ok (), store ++ [b])))) ∨
    ((to_minutes b.start_time = none ∨ to_minutes b.end_time = none) ∧
      create_booking b store = (.error .valueError, store)) := by
  rcases hs : to_minutes b.start_time with _ | ns
  · exact Or.inr ⟨Or.inl rfl, by simp only [create_booking, hs]⟩
  rcases he : to_minutes b.end_time with _ | ne
  · exact Or.inr ⟨Or.inr rfl, by simp only [create_booking, hs, he]⟩
  refine Or.inl ⟨ns, ne, rfl, rfl, ?_⟩
  by_cases hle : ne ≤ ns
  · exact Or.inl ⟨hle, by simp only [create_booking, hs, he, if_pos hle]⟩
  rcases hscan : scan_conflicts ns ne (active_bookings b.pool_id b.date store) with err | u
  · exact Or.inr (Or.inl ⟨by omega, err, rfl,
      by simp only [create_booking, hs, he, if_neg hle, hscan]⟩)
  · cases u
    exact Or.inr (Or.inr ⟨by omega, rfl,
      by simp only [create_booking, hs, he, if_neg hle, hscan]⟩)

lemma active_bookings_append (pid d : String) (l1 l2 : List Booking) :
    active_bookings pid d (l1 ++ l2) =
      active_bookings pid d l1 ++ active_bookings pid d l2 :=
  List.filter_append l1 l2

/-! Theorems for the specified claims. -/

/-- C7: the pairwise overlap test of src/main.py line 137 is symmetric:
`aStart < bEnd AND aEnd > bStart` holds exactly when
`bStart < aEnd AND bEnd > aStart` holds. -/
theorem overlap_test_symmetric (aS aE bS bE : Int) :
    overlaps aS aE bS bE = overlaps bS bE aS aE := by
  by_cases h1 : aS < bE <;> by_cases h2 : bS < aE <;>
    simp [overlaps, h1, h2]

/-- C10: `create_booking` is atomic with respect to the store: every
rejection (invalid range, slot taken, or the unparsable-time error) leaves
the stored booking list unchanged, and acceptance inserts exactly the one
new document. -/
theorem rejection_leaves_store_unchanged (b : Booking) (store : List Booking) :
    (create_booking b store).2 =
      match (create_booking b store).1 with
      | .ok _ => store ++ [b]
      | .error _ => store := by
  rcases create_booking_spec b store with ⟨ns, ne, hs, he, hc⟩ | ⟨-, hcb⟩
  · rcases hc with ⟨-, hcb⟩ | ⟨-, err, -, hcb⟩ | ⟨-, -, hcb⟩ <;> rw [hcb]
  · rw [hcb]

/-- C4: when both requested times parse, a request whose end minute is not
after its start minute is rejected with the invalid-range error for every
store (hence independently of the conflict check), and every accepted
request satisfies start minute < end minute. -/
theorem invalid_range_rejected (b : Booking) (store : List Booking) (ns ne : Int)
    (hs : to_minutes b.start_time = some ns)
    (he : to_minutes b.end_time = some ne) :
    (ne ≤ ns → create_booking b store = (.error .invalidRange, store)) ∧
    (∀ store1, create_booking b store = (.ok (), store1) → ns < ne) := by
  rcases create_booking_spec b store with ⟨ns', ne', hs', he', hc⟩ | ⟨hnone, -⟩
  · rw [hs] at hs'; rw [he] at he'
    obtain rfl : ns' = ns := (Option.some.inj hs').symm
    obtain rfl : ne' = ne := (Option.some.inj he').symm
    rcases hc with ⟨hle, hcb⟩ | ⟨hlt, -, -, hcb⟩ | ⟨hlt, -, hcb⟩
    · refine ⟨fun _ => hcb, fun store1 hok => ?_⟩
      rw [hcb] at hok
      simp at hok
    · exact ⟨fun hle => absurd hle (by omega), fun _ _ => hlt⟩
    · exact ⟨fun hle => absurd hle (by omega), fun _ _ => hlt⟩
  · rcases hnone with h0 | h0
    · rw [hs] at h0; exact Option.noConfusion h0
    · rw [he] at h0; exact Option.noConfusion h0

/-- Witness for C4 at a concrete reversed range (10:00 to 09:00). -/
theorem invalid_range_rejected_witness :
    to_minutes "10:00" = some 600 ∧
    create_booking
      { sampleBooking with start_time := "10:00", end_time := "09:00" } [] =
      (.error .invalidRange, []) :=
  ⟨by decide,
    (invalid_range_rejected
      { sampleBooking with start_time := "10:00", end_time := "09:00" }
      [] 600 540 (by decide) (by decide)).1 (by decide)⟩

/-- C2: a request whose minute range has a nonzero intersection (witnessed
by a common minute m) with some stored pending/confirmed booking of the
same pool and date is rejected with the slot-taken error and the store is
left unchanged.  The store's candidate set is assumed parseable, as every
stored booking was. -/
theorem overlapping_request_rejected (b : Booking) (store : List Booking)
    (ns ne : Int)
    (hs : to_minutes b.start_time = some ns)
    (he : to_minutes b.end_time = some ne)
    (hlt : ns < ne)
    (hwf : ∀ x ∈ active_bookings b.pool_id b.date store, docRange x ≠ none)
    (d : Booking) (hd : d ∈ store)
    (hdf : bookingQueryFilter b.pool_id b.date d = true)
    (s e : Int) (hdr : docRange d = some (s, e))
    (m : Int) (hm1 : ns ≤ m) (hm2 : m < ne) (hm3 : s ≤ m) (hm4 : m < e) :
    create_booking b store = (.error .slotTaken, store) := by
  have hdmem : d ∈ active_bookings b.pool_id b.date store :=
    List.mem_filter.mpr ⟨hd, hdf⟩
  have hov : overlaps ns ne s e = true := overlaps_eq_true_iff.mpr ⟨by omega, by omega⟩
  have hscan := scan_conflicts_slotTaken hwf ⟨d, hdmem, s, e, hdr, hov⟩
  rcases create_booking_spec b store with ⟨ns', ne', hs', he', hc⟩ | ⟨hnone, -⟩
  · rw [hs] at hs'; rw [he] at he'
    obtain rfl : ns' = ns := (Option.some.inj hs').symm
    obtain rfl : ne' = ne := (Option.some.inj he').symm
    rcases hc with ⟨hle, -⟩ | ⟨-, err, hscan', hcb⟩ | ⟨-, hscan', -⟩
    · exact absurd hle (by omega)
    · rw [hscan] at hscan'
      obtain rfl : CreateError.slotTaken = err := Except.error.inj hscan'
      exact hcb
    · rw [hscan] at hscan'
      exact Except.noConfusion hscan'
  · rcases hnone with h0 | h0
    · rw [hs] at h0; exact Option.noConfusion h0
    · rw [he] at h0; exact Option.noConfusion h0

/-- Witness for C2: existing 09:00-10:00 booking, new request 09:30-10:30
for the same pool and date, common minute 570 (09:30). -/
theorem overlapping_request_rejected_witness :
    (540 : Int) < 630 ∧
    create_booking
      { sampleBooking with start_time := "09:30", end_time := "10:30" }
      [sampleBooking] =
      (.error .slotTaken, [sampleBooking]) :=
  ⟨by decide,
    overlapping_request_rejected
      { sampleBooking with start_time := "09:30", end_time := "10:30" }
      [sampleBooking] 570 630 (by decide) (by decide) (by decide)
      (by decide)
      sampleBooking (by decide) (by decide)
      540 600 (by decide)
      570 (by decide) (by decide) (by decide) (by decide)⟩

/-- C3: the half-open overlap test reports no conflict for back-to-back
ranges, and a request all of whose same-pool same-date active candidates
end exactly at its start minute or start exactly at its end minute is
accepted. -/
theorem back_to_back_accepted (b : Booking) (store : List Booking)
    (ns ne : Int)
    (hs : to_minutes b.start_time = some ns)
    (he : to_minutes b.end_time = some ne)
    (hlt : ns < ne)
    (hadj : ∀ x ∈ active_bookings b.pool_id b.date store,
      ∃ s e, docRange x = some (s, e) ∧ (e = ns ∨ s = ne)) :
    (∀ x ∈ active_bookings b.pool_id b.date store,
      ∀ s e, docRange x = some (s, e) → overlaps ns ne s e = false) ∧
    create_booking b store = (.ok (), store ++ [b]) := by
  have hall : ∀ x ∈ active_bookings b.pool_id b.date store,
      ∃ s e, docRange x = some (s, e) ∧ overlaps ns ne s e = false := by
    intro x hx
    obtain ⟨s, e, hr, hba⟩ := hadj x hx
    refine ⟨s, e, hr, overlaps_eq_false_iff.mpr ?_⟩
    rcases hba with rfl | rfl <;> omega
  have hscan := scan_conflicts_ok_of_all hall
  refine ⟨?_, ?_⟩
  · intro x hx s e hr
    obtain ⟨s', e', hr', hov⟩ := hall x hx
    rw [hr] at hr'
    have hp := Option.some.inj hr'
    obtain rfl : s = s' := congrArg Prod.fst hp
    obtain rfl : e = e' := congrArg Prod.snd hp
    exact hov
  · rcases create_booking_spec b store with ⟨ns', ne', hs', he', hc⟩ | ⟨hnone, -⟩
    · rw [hs] at hs'; rw [he] at he'
      obtain rfl : ns' = ns := (Option.some.inj hs').symm
      obtain rfl : ne' = ne := (Option.some.inj he').symm
      rcases hc with ⟨hle, -⟩ | ⟨-, err, hscan', -⟩ | ⟨-, -, hcb⟩
      · exact absurd hle (by omega)
      · rw [hscan] at hscan'
        exact Except.noConfusion hscan'
      · exact hcb
    · rcases hnone with h0 | h0
      · rw [hs] at h0; exact Option.noConfusion h0
      · rw [he] at h0; exact Option.noConfusion h0

/-- Witness for C3: existing 09:00-10:00 booking, new request 10:00-11:00
for the same pool and date, accepted. -/
theorem back_to_back_accepted_witness :
    (600 : Int) < 660 ∧
    ((∀ x ∈ active_bookings "pool1" "2025-06-01" [sampleBooking],
        ∀ s e, docRange x = some (s, e) → overlaps 600 660 s e = false) ∧
      create_booking
        { sampleBooking with start_time := "10:00", end_time := "11:00" }
        [sampleBooking] =
        (.ok (), [sampleBooking] ++
          [{ sampleBooking with start_time := "10:00", end_time := "11:00" }])) :=
  ⟨by decide,
    back_to_back_accepted
      { sampleBooking with start_time := "10:00", end_time := "11:00" }
      [sampleBooking] 600 660 (by decide) (by decide) (by decide)
      (by
        intro x hx
        have hx1 : x = sampleBooking := by
          simpa [active_bookings, bookingQueryFilter, sampleBooking] using hx
        subst hx1
        exact ⟨540, 600, by decide, Or.inl rfl⟩)⟩

/-- C8: a stored booking that is cancelled, or belongs to a different pool
or date, never changes the outcome of a request: deleting it from the
store yields the same result, whatever its time range. -/
theorem inactive_or_mismatched_never_blocks (b d : Booking)
    (h : d.status = "cancelled" ∨ d.pool_id ≠ b.pool_id ∨ d.date ≠ b.date) :
    ∀ pre post,
      (create_booking b (pre ++ d :: post)).1 =
        (create_booking b (pre ++ post)).1 := by
  have hf : bookingQueryFilter b.pool_id b.date d = false := by
    rcases h with h | h | h <;> simp [bookingQueryFilter, h]
  intro pre post
  have key : active_bookings b.pool_id b.date (pre ++ d :: post) =
      active_bookings b.pool_id b.date (pre ++ post) := by
    unfold active_bookings
    rw [List.filter_append, List.filter_append, List.filter_cons_of_neg]
    simp [hf]
  rcases hst : to_minutes b.start_time with _ | ns
  · simp only [create_booking, hst]
  rcases het : to_minutes b.end_time with _ | ne
  · simp only [create_booking, hst, het]
  by_cases hle : ne ≤ ns
  · simp only [create_booking, hst, het, if_pos hle]
  rcases hscan : scan_conflicts ns ne (active_bookings b.pool_id b.date (pre ++ post))
      with err | u
  · simp only [create_booking, hst, het, if_neg hle, key, hscan]
  · cases u
    simp only [create_booking, hst, het, if_neg hle, key, hscan]

/-- Witness for C8: a cancelled 09:00-10:00 booking does not block a new
09:00-10:00 request for the same pool and date. -/
theorem inactive_or_mismatched_never_blocks_witness :
    ({ sampleBooking with status := "cancelled" } : Booking).status =
      "cancelled" ∧
    (create_booking sampleBooking
        [{ sampleBooking with status := "cancelled" }]).1 =
      (create_booking sampleBooking []).1 :=
  ⟨by decide,
    inactive_or_mismatched_never_blocks sampleBooking
      { sampleBooking with status := "cancelled" }
      (Or.inl (by decide)) [] []⟩

/-- C1: a single sequential call to create_booking preserves the
no-conflict invariant: for every pool and date, if the stored
pending/confirmed bookings were pairwise non-overlapping in their
half-open minute ranges before the call, they still are afterwards. -/
theorem no_conflict_invariant_preserved (b : Booking) (store : List Booking)
    (pid d : String)
    (hinv : NoOverlaps (active_bookings pid d store)) :
    NoOverlaps (active_bookings pid d (create_booking b store).2) := by
  rcases create_booking_spec b store with ⟨ns, ne, hs, he, hc⟩ | ⟨-, hcb⟩
  · rcases hc with ⟨-, hcb⟩ | ⟨-, err, -, hcb⟩ | ⟨-, hscan, hcb⟩
    · rw [hcb]; exact hinv
    · rw [hcb]; exact hinv
    · rw [hcb]
      show NoOverlaps (active_bookings pid d (store ++ [b]))
      rw [active_bookings_append]
      by_cases hfb : bookingQueryFilter pid d b = true
      · have hone : active_bookings pid d [b] = [b] := by
          simp [active_bookings, hfb]
        rw [hone]
        have hmatch : b.pool_id = pid ∧ b.date = d := by
          unfold bookingQueryFilter at hfb
          simp only [Bool.and_eq_true, beq_iff_eq] at hfb
          exact ⟨hfb.1.1, hfb.1.2⟩
        obtain ⟨hp, hdd⟩ := hmatch
        subst hp; subst hdd
        refine List.pairwise_append.mpr
          ⟨hinv, List.pairwise_singleton _ _, ?_⟩
        intro a ha x hx
        obtain rfl : x = b := List.mem_singleton.mp hx
        obtain ⟨s, e, hra, hov⟩ := scan_conflicts_ok_mem hscan a ha
        intro ra rb hra' hrb'
        rw [hra] at hra'
        have hpa := Option.some.inj hra'
        obtain rfl : ra = (s, e) := hpa.symm
        rw [docRange_eq_some hs he] at hrb'
        have hpb := Option.some.inj hrb'
        obtain rfl : rb = (ns, ne) := hpb.symm
        have hno := overlaps_eq_false_iff.mp hov
        unfold ranges_disjoint
        simp only
        omega
      · have hnone : active_bookings pid d [b] = [] := by
          simp [active_bookings, List.filter,
            Bool.eq_false_iff.mpr (fun hcon => hfb hcon)]
        rw [hnone, List.append_nil]
        exact hinv
  · rw [hcb]; exact hinv

/-- Witness for C1: accepting an adjacent 10:00-11:00 booking next to a
stored 09:00-10:00 booking keeps the pool's active set conflict-free. -/
theorem no_conflict_invariant_preserved_witness :
    NoOverlaps (active_bookings "pool1" "2025-06-01" [sampleBooking]) ∧
    NoOverlaps (active_bookings "pool1" "2025-06-01"
      (create_booking
        { sampleBooking with start_time := "10:00", end_time := "11:00" }
        [sampleBooking]).2) :=
  have hpre : NoOverlaps (active_bookings "pool1" "2025-06-01" [sampleBooking]) := by
    simp only [NoOverlaps, active_bookings, List.filter]
    simp [bookingQueryFilter, sampleBooking]
  ⟨hpre,
    no_conflict_invariant_preserved
      { sampleBooking with start_time := "10:00", end_time := "11:00" }
      [sampleBooking] "pool1" "2025-06-01" hpre⟩

/-- C9: the availability query returns, in stored order, one entry per
pending/confirmed booking of the given pool and date and nothing else,
each entry carrying exactly that booking's start and end times; mapping
the entries through the minute conversion yields exactly those bookings'
minute ranges.  The right-hand sides are written from the claim's own
filter condition, not from the code's. -/
theorem availability_lists_active_ranges (pid d : String)
    (store : List Booking) :
    get_availability pid d store =
      (store.filter fun x =>
        decide ((x.status = "pending" ∨ x.status = "confirmed") ∧
          x.pool_id = pid ∧ x.date = d)).map
        (fun x => (x.start_time, x.end_time)) ∧
    (get_availability pid d store).map
        (fun p => (to_minutes p.1, to_minutes p.2)) =
      (store.filter fun x =>
        decide ((x.status = "pending" ∨ x.status = "confirmed") ∧
          x.pool_id = pid ∧ x.date = d)).map
        (fun x => (to_minutes x.start_time, to_minutes x.end_time)) := by
  have hpt : ∀ x ∈ store, bookingQueryFilter pid d x =
      decide ((x.status = "pending" ∨ x.status = "confirmed") ∧
        x.pool_id = pid ∧ x.date = d) := by
    intro x _
    by_cases h1 : x.pool_id = pid <;> by_cases h2 : x.date = d <;>
      by_cases h3 : x.status = "pending" <;>
      by_cases h4 : x.status = "confirmed" <;>
      simp [bookingQueryFilter, h1, h2, h3, h4]
  constructor
  · unfold get_availability
    rw [List.filter_congr hpt]
  · unfold get_availability
    rw [List.filter_congr hpt, List.map_map]
    rfl

/-- C5: observed behavior of the time conversion on the spec's malformed
examples: the unpadded string "9:5" parses successfully as 545 minutes
instead of being rejected, and a non-numeric string makes the conversion
fail, which in create_booking surfaces as the uncaught-ValueError outcome
(an unhandled exception, not an invalid-time-format rejection: no such
error kind exists in the code). -/
theorem malformed_time_behavior :
    to_minutes "9:5" = some 545 ∧
    to_minutes "ab:cd" = none ∧
    create_booking { sampleBooking with start_time := "ab:cd" } [] =
      (.error .valueError, []) := by
  decide

/-- C6 counterexample: a request carrying status "confirmed" is accepted
and persisted with status "confirmed", not "pending". -/
theorem accepted_status_not_pending :
    create_booking confirmedRequest [] = (.ok (), [confirmedRequest]) ∧
    confirmedRequest.status ≠ "pending" := by
  decide

/-- C6 (amended): an accepted request is persisted exactly as submitted,
so its stored status is the request's own status field; the schema
defaults that field to "pending" when the request does not supply one. -/
theorem accepted_booking_persisted_as_submitted (b : Booking)
    (store store1 : List Booking)
    (h : create_booking b store = (.ok (), store1)) :
    store1 = store ++ [b] ∧
    ∀ pid gn ge dt st et tp,
      ({ pool_id := pid, guest_name := gn, guest_email := ge, date := dt,
          start_time := st, end_time := et, total_price := tp } :
        Booking).status = "pending" := by
  refine ⟨?_, fun _ _ _ _ _ _ _ => rfl⟩
  rcases create_booking_spec b store with ⟨ns, ne, hs, he, hc⟩ | ⟨-, hcb⟩
  · rcases hc with ⟨-, hcb⟩ | ⟨-, err, -, hcb⟩ | ⟨-, -, hcb⟩
    · rw [hcb] at h; simp at h
    · rw [hcb] at h; simp at h
    · rw [hcb] at h
      exact ((Prod.mk.injEq _ _ _ _).mp h).2.symm
  · rw [hcb] at h; simp at h

/-- Witness for the amended C6 at a concrete accepted request. -/
theorem accepted_booking_persisted_as_submitted_witness :
    create_booking sampleBooking [] = (.ok (), [sampleBooking]) ∧
    ([sampleBooking] = ([] : List Booking) ++ [sampleBooking] ∧
      ∀ pid gn ge dt st et tp,
        ({ pool_id := pid, guest_name := gn, guest_email := ge, date := dt,
            start_time := st, end_time := et, total_price := tp } :
          Booking).status = "pending") :=
  ⟨by decide,
    accepted_booking_persisted_as_submitted sampleBooking [] [sampleBooking]
      (by decide)⟩

end PoolBnB
